import Mathlib

/-!
Verification of the parameter-group batching planner and the IPAM resource
lifecycle adapters of the terraform-provider-aws sources.

The pure chunking algorithm `ResourceParameterModifyChunk`
(internal/service/rds/parameter_group.go) is embedded directly.  The
effectful CRUD handlers are embedded as pure decision functions over the
results of their remote calls: each model reproduces the source's branch
structure and maps every control-flow exit (returning diagnostics, removing
the resource from state, proceeding to populate state, panicking on a nil
dereference) to an explicit outcome value.
-/

/-- One RDS parameter, as in aws-sdk-go `rds.Parameter` restricted to the
fields the provider reads.  `aws.StringValue` of a nil pointer is the empty
string, so plain strings model the pointer fields. -/
structure Parameter where
  parameterName : String
  parameterValue : String
  applyMethod : String
deriving DecidableEq, Repr

/-- Does `sub` occur at the head of `hay`?  (Helper for `strings.Contains`.) -/
def matchesAt : List Char → List Char → Bool
  | [], _ => true
  | _ :: _, [] => false
  | a :: as, b :: bs => a == b && matchesAt as bs

/-- Does `sub` occur anywhere in `hay`?  (Helper for `strings.Contains`.) -/
def containsSub : List Char → List Char → Bool
  | [], sub => matchesAt sub []
  | c :: rest, sub => matchesAt sub (c :: rest) || containsSub rest sub

/-- Go `strings.Contains s sub`. -/
def stringContains (s sub : String) : Bool :=
  containsSub s.data sub.data

/-- Selection test of pass 1 of `ResourceParameterModifyChunk`:
`strings.Contains(name, "character_set") && applyMethod != "pending-reboot"`. -/
def isPassOneParam (p : Parameter) : Bool :=
  stringContains p.parameterName "character_set" && !(p.applyMethod == "pending-reboot")

/-- Selection test of pass 2: `applyMethod != "pending-reboot"`. -/
def isImmediateParam (p : Parameter) : Bool :=
  !(p.applyMethod == "pending-reboot")

/-- Outcome of one `for i, p := range all` pass of
`ResourceParameterModifyChunk`: `early` is the function-level
`return modifyChunk, remainder` taken when capacity is reached mid-pass;
`done` is normal completion of the pass. -/
inductive PassResult where
  | early (chunk remainder : List Parameter)
  | done (chunk remainder : List Parameter)
deriving DecidableEq, Repr

/-- The chunk component of a pass result. -/
def PassResult.chunk : PassResult → List Parameter
  | .early c _ => c
  | .done c _ => c

/-- The remainder component of a pass result. -/
def PassResult.remainder : PassResult → List Parameter
  | .early _ r => r
  | .done _ r => r

/-- One selection pass of `ResourceParameterModifyChunk`
(parameter_group.go lines 410-422, 428-440, 446-453): scan the list; once
`len(modifyChunk) >= maxChunkSize`, append the unscanned tail to the
remainder and return from the function; otherwise append the element to the
chunk when selected and to the remainder when not. -/
def runPass (sel : Parameter → Bool) (maxChunkSize : Nat) :
    List Parameter → List Parameter → List Parameter → PassResult
  | [], chunk, remainder => PassResult.done chunk remainder
  | p :: rest, chunk, remainder =>
    if maxChunkSize ≤ chunk.length then
      PassResult.early chunk (remainder ++ p :: rest)
    else if sel p then
      runPass sel maxChunkSize rest (chunk ++ [p]) remainder
    else
      runPass sel maxChunkSize rest chunk (remainder ++ [p])

/-- `ResourceParameterModifyChunk` (parameter_group.go lines 399-456).
If the input fits in one chunk it is returned whole with a nil remainder.
Otherwise three passes run over the not-yet-selected elements — character-set
parameters that are not pending-reboot, then remaining non-pending-reboot
parameters, then everything else — with `all = remainder; remainder = nil`
between passes, and any capacity-exhaustion inside a pass returning
immediately. -/
def ResourceParameterModifyChunk (all : List Parameter) (maxChunkSize : Nat) :
    List Parameter × List Parameter :=
  if all.length ≤ maxChunkSize then
    (all, [])
  else
    match runPass isPassOneParam maxChunkSize all [] [] with
    | PassResult.early chunk remainder => (chunk, remainder)
    | PassResult.done chunk1 rem1 =>
      match runPass isImmediateParam maxChunkSize rem1 chunk1 [] with
      | PassResult.early chunk remainder => (chunk, remainder)
      | PassResult.done chunk2 rem2 =>
        match runPass (fun _ => true) maxChunkSize rem2 chunk2 [] with
        | PassResult.early chunk remainder => (chunk, remainder)
        | PassResult.done chunk remainder => (chunk, remainder)

/-- The caller loop of `resourceParameterGroupUpdate` (parameter_group.go
lines 286-300): starting from a non-empty parameter list, repeatedly take a
chunk and continue on the remainder until it is nil.  The loop is modelled
with explicit fuel; `chunkSeq` supplies fuel `all.length`, which suffices
whenever the capacity is at least 1. -/
def chunkSeqFuel (maxChunkSize : Nat) : Nat → List Parameter → List (List Parameter)
  | 0, _ => []
  | _ + 1, [] => []
  | fuel + 1, all =>
    let r := ResourceParameterModifyChunk all maxChunkSize
    r.1 :: chunkSeqFuel maxChunkSize fuel r.2

/-- The batches produced by the caller loop of `resourceParameterGroupUpdate`. -/
def chunkSeq (maxChunkSize : Nat) (all : List Parameter) : List (List Parameter) :=
  chunkSeqFuel maxChunkSize all.length all

/-- Priority class of a parameter under the three-pass policy: 0 for
character-set parameters that are not pending-reboot, 1 for other
non-pending-reboot parameters, 2 for pending-reboot parameters. -/
def priorityClass (p : Parameter) : Nat :=
  if isPassOneParam p then 0
  else if isImmediateParam p then 1
  else 2

/-! ## Lifecycle adapter models (Read / Delete / Create decision logic) -/

/-- Result of one remote API call: either a value or an error carrying its
AWS error code. -/
inductive ApiResult (α : Type) where
  | ok (value : α)
  | apiError (code : String)
deriving DecidableEq, Repr

/-- Control-flow exit of a Read handler. -/
inductive ReadOutcome where
  | removedFromState
  | errorReturned
  | panicked
  | proceeded
deriving DecidableEq, Repr

/-- `rds.ErrCodeDBParameterGroupNotFoundFault`. -/
def ErrCodeDBParameterGroupNotFoundFault : String := "DBParameterGroupNotFoundFault"

/-- `InvalidIpamIdNotFound` (resource_aws_vpc_ipam.go line 68). -/
def InvalidIpamIdNotFound : String := "InvalidIpamId.NotFound"

/-- `InvalidIpamScopeIdNotFound` (IPAM scope source line 68). -/
def InvalidIpamScopeIdNotFound : String := "InvalidIpamScopeId.NotFound"

/-- `resourceParameterGroupRead` (parameter_group.go lines 137-160), up to
the point where it starts populating state.  `describeResp` carries the
names of the returned parameter groups.  On error: a
`DBParameterGroupNotFoundFault` code removes the resource from state and
succeeds, any other error is returned; the handler never consults whether
the resource was just created.  On success: zero or several groups, or a
name mismatch, is an error; otherwise the handler proceeds. -/
def resourceParameterGroupReadModel (id : String)
    (describeResp : ApiResult (List String)) (_isNewResource : Bool) : ReadOutcome :=
  match describeResp with
  | ApiResult.apiError code =>
    if code == ErrCodeDBParameterGroupNotFoundFault then
      ReadOutcome.removedFromState
    else
      ReadOutcome.errorReturned
  | ApiResult.ok groups =>
    if groups.length != 1 || !(groups.headD "" == id) then
      ReadOutcome.errorReturned
    else
      ReadOutcome.proceeded

/-- The remote IPAM object, restricted to the fields the Read handler sets. -/
structure Ipam where
  ipamArn : String
  description : String
  operatingRegions : List String
  publicDefaultScopeId : String
  privateDefaultScopeId : String
  scopeCount : Int
deriving DecidableEq, Repr

/-- `findIpamById` (resource_aws_vpc_ipam.go lines 213-229): an error from
`DescribeIpams` is returned; a nil/empty/ nil-first-element response is the
not-found case `(nil, nil)`; otherwise the first IPAM is returned. -/
def findIpamById (resp : ApiResult (List (Option Ipam))) : Option Ipam × Option String :=
  match resp with
  | ApiResult.apiError code => (none, some code)
  | ApiResult.ok ipams =>
    match ipams.headD none with
    | none => (none, none)
    | some ipam => (some ipam, none)

/-- `resourceAwsVpcIpamRead` (resource_aws_vpc_ipam.go lines 105-141).
An error other than `InvalidIpamId.NotFound` is returned; a nil IPAM on a
not-new resource removes it from state and succeeds; otherwise the handler
runs `d.Set("arn", ipam.IpamArn)`, which dereferences the nil IPAM pointer
(panic) when the resource is new and the lookup found nothing. -/
def resourceAwsVpcIpamReadModel (findResult : Option Ipam × Option String)
    (isNewResource : Bool) : ReadOutcome :=
  let ipam := findResult.1
  let err := findResult.2
  if err.isSome && !(err == some InvalidIpamIdNotFound) then
    ReadOutcome.errorReturned
  else if !isNewResource && ipam.isNone then
    ReadOutcome.removedFromState
  else
    match ipam with
    | none => ReadOutcome.panicked
    | some _ => ReadOutcome.proceeded

/-- The remote IPAM scope object, restricted to the fields the Read handler
uses. -/
structure IpamScope where
  ipamScopeArn : String
  ipamArn : String
  description : String
  ipamScopeType : String
  isDefault : Bool
  poolCount : Int
deriving DecidableEq, Repr

/-- `findIpamScopeById` (IPAM scope source lines 181-197), the same shape as
`findIpamById`: errors are returned, an empty or nil-element response is
`(nil, nil)`, otherwise the first scope. -/
def findIpamScopeById (resp : ApiResult (List (Option IpamScope))) :
    Option IpamScope × Option String :=
  match resp with
  | ApiResult.apiError code => (none, some code)
  | ApiResult.ok scopes =>
    match scopes.headD none with
    | none => (none, none)
    | some scope => (some scope, none)

/-- `resourceAwsVpcIpamScopeRead` (IPAM scope source lines 101-128).  The
line `ipamId := strings.Split(*scope.IpamArn, "/")[1]` runs immediately
after the lookup, before the error check and the not-found check, so a nil
scope is dereferenced (panic) before either check can fire. -/
def resourceAwsVpcIpamScopeReadModel (findResult : Option IpamScope × Option String)
    (isNewResource : Bool) : ReadOutcome :=
  let scope := findResult.1
  let err := findResult.2
  match scope with
  | none => ReadOutcome.panicked
  | some _ =>
    if err.isSome && !(err == some InvalidIpamScopeIdNotFound) then
      ReadOutcome.errorReturned
    else if !isNewResource && scope.isNone then
      ReadOutcome.removedFromState
    else
      ReadOutcome.proceeded

/-- Control-flow exit of a Delete handler. -/
inductive DeleteOutcome where
  | succeeded
  | fatalError
deriving DecidableEq, Repr

/-- Result of one `DeleteDBParameterGroup` attempt inside the retry loop of
`resourceParameterGroupDelete`. -/
inductive DeleteAttempt where
  | ok
  | notFoundFault
  | invalidStateFault
  | otherError
deriving DecidableEq, Repr

/-- The `resource.RetryContext` loop of `resourceParameterGroupDelete`
(parameter_group.go lines 365-376) over the finite sequence of attempt
results observed inside the bounded window: a `DBParameterGroupNotFoundFault`
or a success ends the loop successfully, an
`InvalidDBParameterGroupStateFault` is retried, any other error ends the
loop with that error; `none` is the loop still retrying when the window
closes (`TimedOut`). -/
def rdsDeleteRetry : List DeleteAttempt → Option DeleteOutcome
  | [] => none
  | DeleteAttempt.invalidStateFault :: rest => rdsDeleteRetry rest
  | DeleteAttempt.ok :: _ => some DeleteOutcome.succeeded
  | DeleteAttempt.notFoundFault :: _ => some DeleteOutcome.succeeded
  | DeleteAttempt.otherError :: _ => some DeleteOutcome.fatalError

/-- `resourceParameterGroupDelete` (parameter_group.go lines 358-384): run
the retry loop on the attempts the window admits; if it timed out, issue one
final raw delete whose error, if any, is returned as is — only a plain
success of that raw call succeeds. -/
def resourceParameterGroupDeleteModel (attempts : List DeleteAttempt)
    (finalAttempt : DeleteAttempt) : DeleteOutcome :=
  match rdsDeleteRetry attempts with
  | some outcome => outcome
  | none =>
    match finalAttempt with
    | DeleteAttempt.ok => DeleteOutcome.succeeded
    | _ => DeleteOutcome.fatalError

/-- `resourceAwsVpcIpamDelete` (resource_aws_vpc_ipam.go lines 190-211):
any error from `DeleteIpam` itself — a not-found error included — is
returned as fatal; only after a successful delete call does the waiter run,
and a waiter error with code `InvalidIpamId.NotFound` is treated as
success. -/
def resourceAwsVpcIpamDeleteModel (deleteErr : Option String)
    (waitErr : Option String) : DeleteOutcome :=
  match deleteErr with
  | some _ => DeleteOutcome.fatalError
  | none =>
    match waitErr with
    | some code =>
      if code == InvalidIpamIdNotFound then DeleteOutcome.succeeded
      else DeleteOutcome.fatalError
    | none => DeleteOutcome.succeeded

/-- Control-flow exit of the IPAM Create handler with respect to the remote
create call. -/
inductive CreateOutcome where
  | errorBeforeRemoteCall
  | issuedCreate
deriving DecidableEq, Repr

/-- `expandAwsIpamOperatingRegionsDefaultRegion`
(resource_aws_vpc_ipam.go lines 330-338): true iff some configured
operating region equals the provider's current region. -/
def expandAwsIpamOperatingRegionsDefaultRegion :
    List String → String → Bool
  | [], _ => false
  | r :: rest, current =>
    if r == current then true
    else expandAwsIpamOperatingRegionsDefaultRegion rest current

/-- `resourceAwsVpcIpamCreate` (resource_aws_vpc_ipam.go lines 88-99) with
respect to the remote call: when the current region is not among the
configured operating regions the handler returns an error before
`conn.CreateIpam`; otherwise it issues the create. -/
def resourceAwsVpcIpamCreateModel (operatingRegions : List String)
    (currentRegion : String) : CreateOutcome :=
  if !expandAwsIpamOperatingRegionsDefaultRegion operatingRegions currentRegion then
    CreateOutcome.errorBeforeRemoteCall
  else
    CreateOutcome.issuedCreate

/-! ## Lemmas about one selection pass -/

/-- Moving an element across an accumulator is a permutation. -/
theorem append_middle_perm {α : Type} (c r t : List α) (p : α) :
    List.Perm (((c ++ [p]) ++ r) ++ t) ((c ++ r) ++ (p :: t)) := by
  simp only [List.append_assoc]
  exact List.Perm.append_left c (@List.perm_middle α p r t).symm

/-- A pass neither loses nor duplicates parameters: chunk plus remainder of
the result is, as a multiset, the initial chunk plus initial remainder plus
the scanned list. -/
theorem runPass_conservation (sel : Parameter → Bool) (K : Nat) :
    ∀ (l chunk rem : List Parameter),
      (((runPass sel K l chunk rem).chunk ++ (runPass sel K l chunk rem).remainder :
        List Parameter) : Multiset Parameter) =
      ((chunk ++ rem ++ l : List Parameter) : Multiset Parameter)
  | [], chunk, rem => by
    simp [runPass, PassResult.chunk, PassResult.remainder]
  | p :: rest, chunk, rem => by
    rw [runPass]
    by_cases hK : K ≤ chunk.length
    · simp only [if_pos hK, PassResult.chunk, PassResult.remainder]
      simp [List.append_assoc]
    · rw [if_neg hK]
      by_cases hs : sel p
      · rw [if_pos hs]
        have ih := runPass_conservation sel K rest (chunk ++ [p]) rem
        rw [ih]
        exact Multiset.coe_eq_coe.mpr (append_middle_perm chunk rem rest p)
      · rw [if_neg hs]
        have ih := runPass_conservation sel K rest chunk (rem ++ [p])
        rw [ih]
        simp [List.append_assoc]

/-- The remainder of a pass is a subsequence of the initial remainder
followed by the scanned list: arrival order is preserved. -/
theorem runPass_remainder_sublist (sel : Parameter → Bool) (K : Nat) :
    ∀ (l chunk rem : List Parameter),
      List.Sublist (runPass sel K l chunk rem).remainder (rem ++ l)
  | [], chunk, rem => by
    simp [runPass, PassResult.remainder]
  | p :: rest, chunk, rem => by
    rw [runPass]
    by_cases hK : K ≤ chunk.length
    · simp [if_pos hK, PassResult.remainder]
    · rw [if_neg hK]
      by_cases hs : sel p
      · rw [if_pos hs]
        have ih := runPass_remainder_sublist sel K rest (chunk ++ [p]) rem
        exact ih.trans ((List.sublist_cons_self p rest).append_left rem)
      · rw [if_neg hs]
        have ih := runPass_remainder_sublist sel K rest chunk (rem ++ [p])
        simpa [List.append_assoc] using ih

/-- A pass never grows the chunk beyond the capacity. -/
theorem runPass_chunk_length_le (sel : Parameter → Bool) (K : Nat) :
    ∀ (l chunk rem : List Parameter), chunk.length ≤ K →
      (runPass sel K l chunk rem).chunk.length ≤ K
  | [], chunk, rem, h => by
    simpa [runPass, PassResult.chunk] using h
  | p :: rest, chunk, rem, h => by
    rw [runPass]
    by_cases hK : K ≤ chunk.length
    · simpa [if_pos hK, PassResult.chunk] using h
    · rw [if_neg hK]
      by_cases hs : sel p
      · rw [if_pos hs]
        exact runPass_chunk_length_le sel K rest (chunk ++ [p]) rem
          (by simp; omega)
      · rw [if_neg hs]
        exact runPass_chunk_length_le sel K rest chunk (rem ++ [p]) h

/-- An early return happens exactly when the chunk has reached the capacity:
its chunk then has length exactly `K`. -/
theorem runPass_early_chunk_length (sel : Parameter → Bool) (K : Nat) :
    ∀ (l chunk rem c r : List Parameter), chunk.length ≤ K →
      runPass sel K l chunk rem = PassResult.early c r → c.length = K
  | [], chunk, rem, c, r, h, heq => by
    simp [runPass] at heq
  | p :: rest, chunk, rem, c, r, h, heq => by
    rw [runPass] at heq
    by_cases hK : K ≤ chunk.length
    · rw [if_pos hK] at heq
      cases heq
      omega
    · rw [if_neg hK] at heq
      by_cases hs : sel p
      · rw [if_pos hs] at heq
        exact runPass_early_chunk_length sel K rest (chunk ++ [p]) rem c r
          (by simp; omega) heq
      · rw [if_neg hs] at heq
        exact runPass_early_chunk_length sel K rest chunk (rem ++ [p]) c r h heq

/-- Every element of the result chunk is either from the initial chunk or a
selected element of the scanned list. -/
theorem runPass_chunk_mem (sel : Parameter → Bool) (K : Nat) :
    ∀ (l chunk rem : List Parameter) (q : Parameter),
      q ∈ (runPass sel K l chunk rem).chunk →
      q ∈ chunk ∨ (q ∈ l ∧ sel q = true)
  | [], chunk, rem, q, hq => by
    simp [runPass, PassResult.chunk] at hq
    exact Or.inl hq
  | p :: rest, chunk, rem, q, hq => by
    rw [runPass] at hq
    by_cases hK : K ≤ chunk.length
    · rw [if_pos hK] at hq
      exact Or.inl hq
    · rw [if_neg hK] at hq
      by_cases hs : sel p
      · rw [if_pos hs] at hq
        rcases runPass_chunk_mem sel K rest (chunk ++ [p]) rem q hq with hc | ⟨hl, hsel⟩
        · rcases List.mem_append.mp hc with hc | hc
          · exact Or.inl hc
          · have : q = p := by simpa using hc
            subst this
            exact Or.inr ⟨List.mem_cons_self q rest, hs⟩
        · exact Or.inr ⟨List.mem_cons_of_mem p hl, hsel⟩
      · rw [if_neg hs] at hq
        rcases runPass_chunk_mem sel K rest chunk (rem ++ [p]) q hq with hc | ⟨hl, hsel⟩
        · exact Or.inl hc
        · exact Or.inr ⟨List.mem_cons_of_mem p hl, hsel⟩

/-- When a pass completes normally, every element of its remainder is either
from the initial remainder or a scanned element the selector rejected. -/
theorem runPass_done_remainder_mem (sel : Parameter → Bool) (K : Nat) :
    ∀ (l chunk rem c r : List Parameter),
      runPass sel K l chunk rem = PassResult.done c r →
      ∀ q ∈ r, q ∈ rem ∨ (q ∈ l ∧ sel q = false)
  | [], chunk, rem, c, r, heq, q, hq => by
    rw [runPass] at heq
    cases heq
    exact Or.inl hq
  | p :: rest, chunk, rem, c, r, heq, q, hq => by
    rw [runPass] at heq
    by_cases hK : K ≤ chunk.length
    · rw [if_pos hK] at heq
      cases heq
    · rw [if_neg hK] at heq
      by_cases hs : sel p
      · rw [if_pos hs] at heq
        rcases runPass_done_remainder_mem sel K rest (chunk ++ [p]) rem c r heq q hq with
          hr | ⟨hl, hrej⟩
        · exact Or.inl hr
        · exact Or.inr ⟨List.mem_cons_of_mem p hl, hrej⟩
      · rw [if_neg hs] at heq
        rcases runPass_done_remainder_mem sel K rest chunk (rem ++ [p]) c r heq q hq with
          hr | ⟨hl, hrej⟩
        · rcases List.mem_append.mp hr with hr | hr
          · exact Or.inl hr
          · have : q = p := by simpa using hr
            subst this
            refine Or.inr ⟨List.mem_cons_self q rest, ?_⟩
            simpa using hs
        · exact Or.inr ⟨List.mem_cons_of_mem p hl, hrej⟩

/-- A pass whose selector accepts everything adds nothing to the remainder
when it completes normally. -/
theorem runPass_true_done_remainder (K : Nat) :
    ∀ (l chunk rem c r : List Parameter),
      runPass (fun _ => true) K l chunk rem = PassResult.done c r → r = rem
  | [], chunk, rem, c, r, heq => by
    rw [runPass] at heq
    cases heq
    rfl
  | p :: rest, chunk, rem, c, r, heq => by
    rw [runPass] at heq
    by_cases hK : K ≤ chunk.length
    · rw [if_pos hK] at heq
      cases heq
    · rw [if_neg hK, if_pos rfl] at heq
      exact runPass_true_done_remainder K rest (chunk ++ [p]) rem c r heq

/-- Pairwise invariant of a pass: if the initial chunk is pairwise related,
relates to every selectable scanned element, and selectable scanned elements
relate to each other, the result chunk is pairwise related. -/
theorem runPass_chunk_pairwise (sel : Parameter → Bool) (K : Nat)
    (R : Parameter → Parameter → Prop) :
    ∀ (l chunk rem : List Parameter),
      chunk.Pairwise R →
      (∀ a ∈ chunk, ∀ b ∈ l, sel b = true → R a b) →
      (∀ a ∈ l, ∀ b ∈ l, sel a = true → sel b = true → R a b) →
      (runPass sel K l chunk rem).chunk.Pairwise R
  | [], chunk, rem, hc, _, _ => by
    simpa [runPass, PassResult.chunk] using hc
  | p :: rest, chunk, rem, hc, hl, hll => by
    rw [runPass]
    by_cases hK : K ≤ chunk.length
    · simpa [if_pos hK, PassResult.chunk] using hc
    · rw [if_neg hK]
      by_cases hs : sel p
      · rw [if_pos hs]
        refine runPass_chunk_pairwise sel K R rest (chunk ++ [p]) rem ?_ ?_ ?_
        · refine List.pairwise_append.mpr ⟨hc, List.pairwise_singleton R p, ?_⟩
          intro a ha b hb
          have hbp : b = p := by simpa using hb
          rw [hbp]
          exact hl a ha p (List.mem_cons_self p rest) hs
        · intro a ha b hb hbsel
          rcases List.mem_append.mp ha with ha | ha
          · exact hl a ha b (List.mem_cons_of_mem p hb) hbsel
          · have : a = p := by simpa using ha
            subst this
            exact hll a (List.mem_cons_self a rest) b (List.mem_cons_of_mem a hb) hs hbsel
        · intro a ha b hb
          exact hll a (List.mem_cons_of_mem p ha) b (List.mem_cons_of_mem p hb)
      · rw [if_neg hs]
        refine runPass_chunk_pairwise sel K R rest chunk (rem ++ [p]) hc ?_ ?_
        · intro a ha b hb hbsel
          exact hl a ha b (List.mem_cons_of_mem p hb) hbsel
        · intro a ha b hb
          exact hll a (List.mem_cons_of_mem p ha) b (List.mem_cons_of_mem p hb)

/-! ## Lemmas about the whole chunking function -/

/-- The trivial case: an input that fits returns whole with nil remainder. -/
theorem RPMC_trivial (all : List Parameter) (K : Nat) (h : all.length ≤ K) :
    ResourceParameterModifyChunk all K = (all, []) := by
  simp [ResourceParameterModifyChunk, h]

/-- Batch and remainder together are exactly the input, as a multiset. -/
theorem RPMC_conservation (all : List Parameter) (K : Nat) :
    (((ResourceParameterModifyChunk all K).1 ++ (ResourceParameterModifyChunk all K).2 :
      List Parameter) : Multiset Parameter) = (all : Multiset Parameter) := by
  unfold ResourceParameterModifyChunk
  split
  · simp
  · split
    next c r heq =>
      have h := runPass_conservation isPassOneParam K all [] []
      rw [heq] at h
      simpa [PassResult.chunk, PassResult.remainder] using h
    next c1 r1 heq1 =>
      have h1 := runPass_conservation isPassOneParam K all [] []
      rw [heq1] at h1
      simp only [PassResult.chunk, PassResult.remainder, List.append_nil,
        List.nil_append] at h1
      split
      next c r heq =>
        have h2 := runPass_conservation isImmediateParam K r1 c1 []
        rw [heq] at h2
        simp only [PassResult.chunk, PassResult.remainder, List.append_nil,
          List.nil_append] at h2
        exact h2.trans h1
      next c2 r2 heq2 =>
        have h2 := runPass_conservation isImmediateParam K r1 c1 []
        rw [heq2] at h2
        simp only [PassResult.chunk, PassResult.remainder, List.append_nil,
          List.nil_append] at h2
        split
        next c r heq =>
          have h3 := runPass_conservation (fun _ => true) K r2 c2 []
          rw [heq] at h3
          simp only [PassResult.chunk, PassResult.remainder, List.append_nil,
            List.nil_append] at h3
          exact (h3.trans h2).trans h1
        next c3 r3 heq3 =>
          have h3 := runPass_conservation (fun _ => true) K r2 c2 []
          rw [heq3] at h3
          simp only [PassResult.chunk, PassResult.remainder, List.append_nil,
            List.nil_append] at h3
          exact (h3.trans h2).trans h1

/-- The batch never exceeds the capacity. -/
theorem RPMC_batch_length_le (all : List Parameter) (K : Nat) :
    (ResourceParameterModifyChunk all K).1.length ≤ K := by
  unfold ResourceParameterModifyChunk
  split
  next hle => simpa using hle
  next hgt =>
    split
    next c r heq =>
      have h := runPass_chunk_length_le isPassOneParam K all [] [] (by simp)
      rw [heq] at h
      simpa [PassResult.chunk] using h
    next c1 r1 heq1 =>
      have hc1 := runPass_chunk_length_le isPassOneParam K all [] [] (by simp)
      rw [heq1] at hc1
      simp only [PassResult.chunk] at hc1
      split
      next c r heq =>
        have h := runPass_chunk_length_le isImmediateParam K r1 c1 [] hc1
        rw [heq] at h
        simpa [PassResult.chunk] using h
      next c2 r2 heq2 =>
        have hc2 := runPass_chunk_length_le isImmediateParam K r1 c1 [] hc1
        rw [heq2] at hc2
        simp only [PassResult.chunk] at hc2
        split
        next c r heq =>
          have h := runPass_chunk_length_le (fun _ => true) K r2 c2 [] hc2
          rw [heq] at h
          simpa [PassResult.chunk] using h
        next c3 r3 heq3 =>
          have h := runPass_chunk_length_le (fun _ => true) K r2 c2 [] hc2
          rw [heq3] at h
          simpa [PassResult.chunk] using h

/-- Batch length plus remainder length is the input length. -/
theorem RPMC_length_split (all : List Parameter) (K : Nat) :
    (ResourceParameterModifyChunk all K).1.length +
      (ResourceParameterModifyChunk all K).2.length = all.length := by
  have h := congrArg Multiset.card (RPMC_conservation all K)
  simpa [Multiset.coe_card] using h

/-- On an input larger than the capacity the batch has length exactly the
capacity. -/
theorem RPMC_batch_length_eq (all : List Parameter) (K : Nat) (h : K < all.length) :
    (ResourceParameterModifyChunk all K).1.length = K := by
  unfold ResourceParameterModifyChunk
  split
  next hle => exact absurd hle (by omega)
  next hgt =>
    split
    next c r heq =>
      exact runPass_early_chunk_length isPassOneParam K all [] [] c r (by simp) heq
    next c1 r1 heq1 =>
      have hc1 := runPass_chunk_length_le isPassOneParam K all [] [] (by simp)
      rw [heq1] at hc1
      simp only [PassResult.chunk] at hc1
      split
      next c r heq =>
        exact runPass_early_chunk_length isImmediateParam K r1 c1 [] c r hc1 heq
      next c2 r2 heq2 =>
        have hc2 := runPass_chunk_length_le isImmediateParam K r1 c1 [] hc1
        rw [heq2] at hc2
        simp only [PassResult.chunk] at hc2
        split
        next c r heq =>
          exact runPass_early_chunk_length (fun _ => true) K r2 c2 [] c r hc2 heq
        next c3 r3 heq3 =>
          -- impossible: the final pass selects everything, so its normal
          -- completion would put the whole oversize input into the batch
          have hr3 := runPass_true_done_remainder K r2 c2 [] c3 r3 heq3
          subst hr3
          have h1 := runPass_conservation isPassOneParam K all [] []
          rw [heq1] at h1
          simp only [PassResult.chunk, PassResult.remainder, List.append_nil,
            List.nil_append] at h1
          have h2 := runPass_conservation isImmediateParam K r1 c1 []
          rw [heq2] at h2
          simp only [PassResult.chunk, PassResult.remainder, List.append_nil,
            List.nil_append] at h2
          have h3 := runPass_conservation (fun _ => true) K r2 c2 []
          rw [heq3] at h3
          simp only [PassResult.chunk, PassResult.remainder, List.append_nil,
            List.nil_append] at h3
          have hall := (h3.trans h2).trans h1
          have hlen := congrArg Multiset.card hall
          simp only [Multiset.coe_card] at hlen
          have hle := runPass_chunk_length_le (fun _ => true) K r2 c2 [] hc2
          rw [heq3] at hle
          simp only [PassResult.chunk] at hle
          simp only [] 
          omega

/-- The remainder is a subsequence of the input: arrival order is
preserved among the unselected parameters. -/
theorem RPMC_remainder_sublist (all : List Parameter) (K : Nat) :
    List.Sublist (ResourceParameterModifyChunk all K).2 all := by
  unfold ResourceParameterModifyChunk
  split
  · simp
  · split
    next c r heq =>
      have h := runPass_remainder_sublist isPassOneParam K all [] []
      rw [heq] at h
      simpa [PassResult.remainder] using h
    next c1 r1 heq1 =>
      have hr1 := runPass_remainder_sublist isPassOneParam K all [] []
      rw [heq1] at hr1
      simp only [PassResult.remainder, List.nil_append] at hr1
      split
      next c r heq =>
        have h := runPass_remainder_sublist isImmediateParam K r1 c1 []
        rw [heq] at h
        simp only [PassResult.remainder, List.nil_append] at h
        exact h.trans hr1
      next c2 r2 heq2 =>
        have hr2 := runPass_remainder_sublist isImmediateParam K r1 c1 []
        rw [heq2] at hr2
        simp only [PassResult.remainder, List.nil_append] at hr2
        split
        next c r heq =>
          have h := runPass_remainder_sublist (fun _ => true) K r2 c2 []
          rw [heq] at h
          simp only [PassResult.remainder, List.nil_append] at h
          exact (h.trans hr2).trans hr1
        next c3 r3 heq3 =>
          have h := runPass_remainder_sublist (fun _ => true) K r2 c2 []
          rw [heq3] at h
          simp only [PassResult.remainder, List.nil_append] at h
          exact (h.trans hr2).trans hr1

/-- A pass-1 parameter is in particular not pending-reboot. -/
theorem passOne_immediate (p : Parameter) :
    isImmediateParam p = false → isPassOneParam p = false := by
  intro hp
  unfold isImmediateParam at hp
  unfold isPassOneParam
  rw [hp, Bool.and_false]

/-- Class of a pass-1 parameter. -/
theorem priorityClass_passOne (p : Parameter) (h : isPassOneParam p = true) :
    priorityClass p = 0 := by
  simp [priorityClass, h]

/-- Class of a plain immediate-apply parameter. -/
theorem priorityClass_immediate (p : Parameter) (h1 : isPassOneParam p = false)
    (h2 : isImmediateParam p = true) : priorityClass p = 1 := by
  simp [priorityClass, h1, h2]

/-- Class of a pending-reboot parameter. -/
theorem priorityClass_pending (p : Parameter) (h : isImmediateParam p = false) :
    priorityClass p = 2 := by
  simp [priorityClass, passOne_immediate p h, h]

/-- On an input larger than the capacity, the batch is ordered by the three
priority classes. -/
theorem RPMC_batch_sorted (all : List Parameter) (K : Nat) (h : K < all.length) :
    List.Pairwise (fun a b => priorityClass a ≤ priorityClass b)
      (ResourceParameterModifyChunk all K).1 := by
  unfold ResourceParameterModifyChunk
  split
  next hle => exact absurd hle (by omega)
  next hgt =>
    have hll1 : ∀ a ∈ all, ∀ b ∈ all, isPassOneParam a = true →
        isPassOneParam b = true → priorityClass a ≤ priorityClass b := by
      intro a _ b _ ha _
      rw [priorityClass_passOne a ha]
      exact Nat.zero_le _
    split
    next c r heq =>
      have hp := runPass_chunk_pairwise isPassOneParam K
        (fun a b => priorityClass a ≤ priorityClass b) all [] []
        List.Pairwise.nil (by simp) hll1
      rw [heq] at hp
      simpa [PassResult.chunk] using hp
    next c1 r1 heq1 =>
      have hc1pw := runPass_chunk_pairwise isPassOneParam K
        (fun a b => priorityClass a ≤ priorityClass b) all [] []
        List.Pairwise.nil (by simp) hll1
      rw [heq1] at hc1pw
      simp only [PassResult.chunk] at hc1pw
      have hc1mem : ∀ q ∈ c1, priorityClass q = 0 := by
        intro q hq
        have hm := runPass_chunk_mem isPassOneParam K all [] [] q
        rw [heq1] at hm
        simp only [PassResult.chunk] at hm
        rcases hm hq with hq0 | ⟨_, hsel⟩
        · simp at hq0
        · exact priorityClass_passOne q hsel
      have hr1mem : ∀ q ∈ r1, isPassOneParam q = false := by
        intro q hq
        rcases runPass_done_remainder_mem isPassOneParam K all [] [] c1 r1 heq1 q hq with
          hq0 | ⟨_, hrej⟩
        · simp at hq0
        · exact hrej
      have hl2 : ∀ a ∈ c1, ∀ b ∈ r1, isImmediateParam b = true →
          priorityClass a ≤ priorityClass b := by
        intro a ha b _ _
        rw [hc1mem a ha]
        exact Nat.zero_le _
      have hll2 : ∀ a ∈ r1, ∀ b ∈ r1, isImmediateParam a = true →
          isImmediateParam b = true → priorityClass a ≤ priorityClass b := by
        intro a ha b hb hai hbi
        rw [priorityClass_immediate a (hr1mem a ha) hai,
          priorityClass_immediate b (hr1mem b hb) hbi]
      split
      next c r heq =>
        have hp := runPass_chunk_pairwise isImmediateParam K
          (fun a b => priorityClass a ≤ priorityClass b) r1 c1 [] hc1pw hl2 hll2
        rw [heq] at hp
        simpa [PassResult.chunk] using hp
      next c2 r2 heq2 =>
        have hc2pw := runPass_chunk_pairwise isImmediateParam K
          (fun a b => priorityClass a ≤ priorityClass b) r1 c1 [] hc1pw hl2 hll2
        rw [heq2] at hc2pw
        simp only [PassResult.chunk] at hc2pw
        have hc2mem : ∀ q ∈ c2, priorityClass q ≤ 1 := by
          intro q hq
          have hm := runPass_chunk_mem isImmediateParam K r1 c1 [] q
          rw [heq2] at hm
          simp only [PassResult.chunk] at hm
          rcases hm hq with hq1 | ⟨hqr1, hsel⟩
          · rw [hc1mem q hq1]
            omega
          · rw [priorityClass_immediate q (hr1mem q hqr1) hsel]
        have hr2mem : ∀ q ∈ r2, priorityClass q = 2 := by
          intro q hq
          rcases runPass_done_remainder_mem isImmediateParam K r1 c1 [] c2 r2 heq2 q hq with
            hq0 | ⟨_, hrej⟩
          · simp at hq0
          · exact priorityClass_pending q hrej
        have hl3 : ∀ a ∈ c2, ∀ b ∈ r2, (fun _ : Parameter => true) b = true →
            priorityClass a ≤ priorityClass b := by
          intro a ha b hb _
          rw [hr2mem b hb]
          have := hc2mem a ha
          omega
        have hll3 : ∀ a ∈ r2, ∀ b ∈ r2, (fun _ : Parameter => true) a = true →
            (fun _ : Parameter => true) b = true →
            priorityClass a ≤ priorityClass b := by
          intro a ha b hb _ _
          rw [hr2mem a ha, hr2mem b hb]
        split
        next c r heq =>
          have hp := runPass_chunk_pairwise (fun _ => true) K
            (fun a b => priorityClass a ≤ priorityClass b) r2 c2 [] hc2pw hl3 hll3
          rw [heq] at hp
          simpa [PassResult.chunk] using hp
        next c3 r3 heq3 =>
          have hp := runPass_chunk_pairwise (fun _ => true) K
            (fun a b => priorityClass a ≤ priorityClass b) r2 c2 [] hc2pw hl3 hll3
          rw [heq3] at hp
          simpa [PassResult.chunk] using hp

/-- The caller loop produces nothing from an empty list. -/
theorem chunkSeqFuel_nil (K fuel : Nat) : chunkSeqFuel K fuel [] = [] := by
  cases fuel <;> simp [chunkSeqFuel]

/-- With enough fuel (the input length suffices when the capacity is at
least 1), the batches of the caller loop concatenate, as a multiset, to the
input. -/
theorem chunkSeqFuel_flatten (K : Nat) (hK : 1 ≤ K) :
    ∀ (fuel : Nat) (all : List Parameter), all.length ≤ fuel →
      (((chunkSeqFuel K fuel all).flatten : List Parameter) : Multiset Parameter) =
        (all : Multiset Parameter)
  | 0, all, h => by
    have : all = [] := List.length_eq_zero.mp (by omega)
    subst this
    simp [chunkSeqFuel]
  | fuel + 1, all, h => by
    cases all with
    | nil => simp [chunkSeqFuel]
    | cons p ps =>
      show ((((ResourceParameterModifyChunk (p :: ps) K).1 ::
        chunkSeqFuel K fuel (ResourceParameterModifyChunk (p :: ps) K).2).flatten :
          List Parameter) : Multiset Parameter) = _
      rw [List.flatten_cons]
      by_cases hle : (p :: ps).length ≤ K
      · rw [RPMC_trivial (p :: ps) K hle]
        simp [chunkSeqFuel_nil]
      · have hlt : K < (p :: ps).length := by omega
        have hrlen : (ResourceParameterModifyChunk (p :: ps) K).2.length ≤ fuel := by
          have h1 := RPMC_length_split (p :: ps) K
          have h2 := RPMC_batch_length_eq (p :: ps) K hlt
          simp only [List.length_cons] at h1 ⊢
          simp only [List.length_cons] at h
          omega
        have ih := chunkSeqFuel_flatten K hK fuel
          (ResourceParameterModifyChunk (p :: ps) K).2 hrlen
        rw [← Multiset.coe_add, ih, Multiset.coe_add]
        exact RPMC_conservation (p :: ps) K

/-- The batches of the caller loop concatenate, as a multiset, to the input. -/
theorem chunkSeq_flatten (K : Nat) (hK : 1 ≤ K) (all : List Parameter) :
    (((chunkSeq K all).flatten : List Parameter) : Multiset Parameter) =
      (all : Multiset Parameter) :=
  chunkSeqFuel_flatten K hK all.length all (Nat.le.refl)

/-- On duplicate-free input the caller loop's batches are pairwise disjoint. -/
theorem chunkSeq_pairwise_disjoint (K : Nat) (hK : 1 ≤ K) (all : List Parameter)
    (hnd : all.Nodup) :
    List.Pairwise List.Disjoint (chunkSeq K all) := by
  have hperm : List.Perm (chunkSeq K all).flatten all :=
    Multiset.coe_eq_coe.mp (chunkSeq_flatten K hK all)
  have hjn : (chunkSeq K all).flatten.Nodup := hperm.symm.nodup hnd
  exact (List.nodup_flatten.mp hjn).2

/-! ## Claims -/

/-- C1: for every input list and capacity at least 1, a single call to
`ResourceParameterModifyChunk` returns a batch and remainder forming a
multiset partition of its input, and repeatedly applying it until the
remainder is empty yields batches whose multiset union equals the input —
no parameter duplicated or lost — which on duplicate-free input are
pairwise disjoint. -/
theorem claim_C1 (all : List Parameter) (K : Nat) (hK : 1 ≤ K) :
    (((ResourceParameterModifyChunk all K).1 ++ (ResourceParameterModifyChunk all K).2 :
      List Parameter) : Multiset Parameter) = (all : Multiset Parameter) ∧
    (((chunkSeq K all).flatten : List Parameter) : Multiset Parameter) =
      (all : Multiset Parameter) ∧
    (all.Nodup → List.Pairwise List.Disjoint (chunkSeq K all)) :=
  ⟨RPMC_conservation all K, chunkSeq_flatten K hK all,
    chunkSeq_pairwise_disjoint K hK all⟩

/-- Witness for C1 at a concrete two-element input with capacity 1. -/
theorem claim_C1_witness :
    (((chunkSeq 1 [⟨"a", "1", "immediate"⟩, ⟨"b", "2", "pending-reboot"⟩]).flatten :
      List Parameter) : Multiset Parameter) =
      (([⟨"a", "1", "immediate"⟩, ⟨"b", "2", "pending-reboot"⟩] :
        List Parameter) : Multiset Parameter) :=
  (claim_C1 [⟨"a", "1", "immediate"⟩, ⟨"b", "2", "pending-reboot"⟩] 1 (by decide)).2.1

/-- C2: for every input list and capacity at least 1, the batch has size at
most the capacity, and exactly the capacity whenever the input has at least
that many elements. -/
theorem claim_C2 (all : List Parameter) (K : Nat) (hK : 1 ≤ K) :
    (ResourceParameterModifyChunk all K).1.length ≤ K ∧
    (K ≤ all.length → (ResourceParameterModifyChunk all K).1.length = K) := by
  refine ⟨RPMC_batch_length_le all K, fun hge => ?_⟩
  rcases Nat.lt_or_ge K all.length with hlt | hle2
  · exact RPMC_batch_length_eq all K hlt
  · have hEq : all.length = K := by omega
    rw [RPMC_trivial all K hle2]
    simpa using hEq

/-- Witness for C2: three parameters, capacity 2, batch of exactly 2. -/
theorem claim_C2_witness :
    (ResourceParameterModifyChunk
      [⟨"a", "1", "immediate"⟩, ⟨"b", "2", "pending-reboot"⟩,
       ⟨"c", "3", "immediate"⟩] 2).1.length ≤ 2 ∧
    (2 ≤ ([⟨"a", "1", "immediate"⟩, ⟨"b", "2", "pending-reboot"⟩,
       ⟨"c", "3", "immediate"⟩] : List Parameter).length →
      (ResourceParameterModifyChunk
        [⟨"a", "1", "immediate"⟩, ⟨"b", "2", "pending-reboot"⟩,
         ⟨"c", "3", "immediate"⟩] 2).1.length = 2) :=
  claim_C2 [⟨"a", "1", "immediate"⟩, ⟨"b", "2", "pending-reboot"⟩,
    ⟨"c", "3", "immediate"⟩] 2 (by decide)

/-- C3: for every input of at most the capacity (capacity at least 1), the
whole input is returned as the batch with an empty (nil) remainder; in
particular the empty input yields an empty batch and nil remainder. -/
theorem claim_C3 (all : List Parameter) (K : Nat) (hK : 1 ≤ K)
    (h : all.length ≤ K) :
    ResourceParameterModifyChunk all K = (all, []) ∧
    ResourceParameterModifyChunk [] K = ([], []) :=
  ⟨RPMC_trivial all K h, RPMC_trivial [] K (by simp)⟩

/-- Witness for C3: two parameters, capacity 20. -/
theorem claim_C3_witness :
    ResourceParameterModifyChunk
      [⟨"a", "1", "immediate"⟩, ⟨"b", "2", "pending-reboot"⟩] 20 =
      ([⟨"a", "1", "immediate"⟩, ⟨"b", "2", "pending-reboot"⟩], []) ∧
    ResourceParameterModifyChunk [] 20 = ([], []) :=
  claim_C3 [⟨"a", "1", "immediate"⟩, ⟨"b", "2", "pending-reboot"⟩] 20
    (by decide) (by decide)

/-- C4 counterexample: with an input that fits within the capacity the
function returns the input in arrival order without any prioritization, so
a pending-reboot parameter can precede a character-set immediate-apply one
in the batch; the claim as stated, with no lower bound on the input size,
is false. -/
theorem claim_C4_cex :
    (ResourceParameterModifyChunk
      [⟨"max_connections", "100", "pending-reboot"⟩,
       ⟨"character_set_server", "utf8", "immediate"⟩] 2).1 =
      [⟨"max_connections", "100", "pending-reboot"⟩,
       ⟨"character_set_server", "utf8", "immediate"⟩] ∧
    priorityClass ⟨"max_connections", "100", "pending-reboot"⟩ = 2 ∧
    priorityClass ⟨"character_set_server", "utf8", "immediate"⟩ = 0 ∧
    ¬ List.Pairwise (fun a b => priorityClass a ≤ priorityClass b)
      (ResourceParameterModifyChunk
        [⟨"max_connections", "100", "pending-reboot"⟩,
         ⟨"character_set_server", "utf8", "immediate"⟩] 2).1 := by decide

/-- C4 (amended): when the input has more than K elements (K at least 1),
the batch is ordered by the three priority classes — character-set
immediate-apply parameters first, then other immediate-apply parameters,
then pending-reboot parameters — each class selected by a separate
sequential pass; an input of at most K elements is returned in arrival
order without prioritization. -/
theorem claim_C4 (all : List Parameter) (K : Nat) (hK : 1 ≤ K)
    (h : K < all.length) :
    List.Pairwise (fun a b => priorityClass a ≤ priorityClass b)
      (ResourceParameterModifyChunk all K).1 :=
  RPMC_batch_sorted all K h

/-- Witness for C4 at the spec's worked example (three parameters,
capacity 2). -/
theorem claim_C4_witness :
    List.Pairwise (fun a b => priorityClass a ≤ priorityClass b)
      (ResourceParameterModifyChunk
        [⟨"character_set_client", "utf8", "immediate"⟩,
         ⟨"character_set_server", "utf8", "pending-reboot"⟩,
         ⟨"max_connections", "100", "immediate"⟩] 2).1 :=
  claim_C4 [⟨"character_set_client", "utf8", "immediate"⟩,
    ⟨"character_set_server", "utf8", "pending-reboot"⟩,
    ⟨"max_connections", "100", "immediate"⟩] 2 (by decide) (by decide)

/-- C5: when the input has more than K elements (K at least 1), the
function returns a batch of exactly K elements, and the remainder is
exactly the unselected elements — batch and remainder form a multiset
partition of the input — with the remainder a subsequence of the input, so
relative arrival order is preserved within it. -/
theorem claim_C5 (all : List Parameter) (K : Nat) (hK : 1 ≤ K)
    (h : K < all.length) :
    (ResourceParameterModifyChunk all K).1.length = K ∧
    List.Sublist (ResourceParameterModifyChunk all K).2 all ∧
    (((ResourceParameterModifyChunk all K).1 ++ (ResourceParameterModifyChunk all K).2 :
      List Parameter) : Multiset Parameter) = (all : Multiset Parameter) :=
  ⟨RPMC_batch_length_eq all K h, RPMC_remainder_sublist all K,
    RPMC_conservation all K⟩

/-- Witness for C5: three parameters, capacity 1. -/
theorem claim_C5_witness :
    (ResourceParameterModifyChunk
      [⟨"a", "1", "immediate"⟩, ⟨"b", "2", "pending-reboot"⟩,
       ⟨"c", "3", "immediate"⟩] 1).1.length = 1 :=
  (claim_C5 [⟨"a", "1", "immediate"⟩, ⟨"b", "2", "pending-reboot"⟩,
    ⟨"c", "3", "immediate"⟩] 1 (by decide) (by decide)).1

/-- C6: the embedding of `ResourceParameterModifyChunk` is a total function
(purity and termination hold by construction for every input and capacity),
and when the input has more than K elements (K at least 1) the remainder has
exactly `|all| - K` elements, strictly fewer than the input, which is the
decreasing measure making the caller's repeated invocation terminate. -/
theorem claim_C6 (all : List Parameter) (K : Nat) (hK : 1 ≤ K)
    (h : K < all.length) :
    (ResourceParameterModifyChunk all K).2.length = all.length - K ∧
    (ResourceParameterModifyChunk all K).2.length < all.length := by
  have h1 := RPMC_length_split all K
  have h2 := RPMC_batch_length_eq all K h
  constructor <;> omega

/-- Witness for C6: three parameters, capacity 2, remainder of one. -/
theorem claim_C6_witness :
    (ResourceParameterModifyChunk
      [⟨"a", "1", "immediate"⟩, ⟨"b", "2", "pending-reboot"⟩,
       ⟨"c", "3", "immediate"⟩] 2).2.length =
      ([⟨"a", "1", "immediate"⟩, ⟨"b", "2", "pending-reboot"⟩,
        ⟨"c", "3", "immediate"⟩] : List Parameter).length - 2 :=
  (claim_C6 [⟨"a", "1", "immediate"⟩, ⟨"b", "2", "pending-reboot"⟩,
    ⟨"c", "3", "immediate"⟩] 2 (by decide) (by decide)).1

/-- C7 counterexample: a just-created RDS parameter group whose describe
call reports not-found is removed from state and the Read succeeds — the
handler never returns the hard error the claim requires for just-created
resources. -/
theorem claim_C7_cex :
    resourceParameterGroupReadModel "pg-1"
      (ApiResult.apiError ErrCodeDBParameterGroupNotFoundFault) true =
      ReadOutcome.removedFromState ∧
    ReadOutcome.removedFromState ≠ ReadOutcome.errorReturned := by decide

/-- C7 (amended): on a not-found lookup the Read clears the local identity
and returns success when the resource is not newly created; the RDS
parameter group Read does so regardless of whether the resource was just
created, and a just-created IPAM Read whose lookup finds nothing does not
return a hard error — it proceeds into a nil dereference. -/
theorem claim_C7 (id : String) (isNewResource : Bool) :
    resourceParameterGroupReadModel id
      (ApiResult.apiError ErrCodeDBParameterGroupNotFoundFault) isNewResource =
      ReadOutcome.removedFromState ∧
    resourceAwsVpcIpamReadModel (findIpamById (ApiResult.ok [])) false =
      ReadOutcome.removedFromState ∧
    resourceAwsVpcIpamReadModel (none, some InvalidIpamIdNotFound) false =
      ReadOutcome.removedFromState ∧
    resourceAwsVpcIpamReadModel (none, none) true = ReadOutcome.panicked :=
  ⟨rfl, by decide, by decide, by decide⟩

/-- Retrying skips any run of transient state-conflict errors. -/
theorem rdsDeleteRetry_skips_conflicts (l : List DeleteAttempt) :
    ∀ n : Nat, rdsDeleteRetry (List.replicate n DeleteAttempt.invalidStateFault ++ l) =
      rdsDeleteRetry l
  | 0 => rfl
  | n + 1 => by
    rw [List.replicate_succ, List.cons_append, rdsDeleteRetry]
    exact rdsDeleteRetry_skips_conflicts l n

/-- C8 counterexample: an IPAM delete whose `DeleteIpam` call reports
not-found is returned as a fatal error, not treated as success. -/
theorem claim_C8_cex :
    resourceAwsVpcIpamDeleteModel (some InvalidIpamIdNotFound) none =
      DeleteOutcome.fatalError ∧
    DeleteOutcome.fatalError ≠ DeleteOutcome.succeeded := by decide

/-- C8 (amended): the RDS parameter group Delete treats not-found as
success, retries transient state conflicts within the bounded window, and
returns every other error as fatal immediately; the IPAM Delete, however,
returns any error of the delete call itself — a not-found error included —
as fatal with no state-conflict retry, and treats not-found as success only
when it is reported by the post-delete waiter. -/
theorem claim_C8 :
    (∀ (rest : List DeleteAttempt) (fin : DeleteAttempt),
      resourceParameterGroupDeleteModel (DeleteAttempt.notFoundFault :: rest) fin =
        DeleteOutcome.succeeded) ∧
    (∀ (n : Nat) (rest : List DeleteAttempt) (fin : DeleteAttempt),
      resourceParameterGroupDeleteModel
        (List.replicate n DeleteAttempt.invalidStateFault ++
          DeleteAttempt.notFoundFault :: rest) fin = DeleteOutcome.succeeded) ∧
    (∀ (rest : List DeleteAttempt) (fin : DeleteAttempt),
      resourceParameterGroupDeleteModel (DeleteAttempt.otherError :: rest) fin =
        DeleteOutcome.fatalError) ∧
    (∀ (code : String) (waitErr : Option String),
      resourceAwsVpcIpamDeleteModel (some code) waitErr = DeleteOutcome.fatalError) ∧
    resourceAwsVpcIpamDeleteModel none (some InvalidIpamIdNotFound) =
      DeleteOutcome.succeeded ∧
    resourceAwsVpcIpamDeleteModel none none = DeleteOutcome.succeeded := by
  refine ⟨fun rest fin => rfl, fun n rest fin => ?_, fun rest fin => rfl,
    fun code waitErr => rfl, by decide, by decide⟩
  unfold resourceParameterGroupDeleteModel
  rw [rdsDeleteRetry_skips_conflicts (DeleteAttempt.notFoundFault :: rest) n]
  rfl

/-- C9: the IPAM scope Read computes
`ipamId := strings.Split(*scope.IpamArn, "/")[1]` immediately after the
lookup, before the error and not-found checks, so a lookup that returns no
scope (nil, nil) dereferences a nil pointer and panics instead of reaching
the not-found check that would clear state. -/
theorem claim_C9 :
    resourceAwsVpcIpamScopeReadModel (findIpamScopeById (ApiResult.ok [])) false =
      ReadOutcome.panicked ∧
    resourceAwsVpcIpamScopeReadModel (none, none) false = ReadOutcome.panicked ∧
    ReadOutcome.panicked ≠ ReadOutcome.removedFromState := by decide

/-- The region scan of the IPAM Create returns true exactly when the
current region is among the configured operating regions. -/
theorem expandDefaultRegion_eq_mem (regions : List String) (current : String) :
    expandAwsIpamOperatingRegionsDefaultRegion regions current = true ↔
      current ∈ regions := by
  induction regions with
  | nil => simp [expandAwsIpamOperatingRegionsDefaultRegion]
  | cons r rest ih =>
    rw [expandAwsIpamOperatingRegionsDefaultRegion]
    by_cases h : r = current
    · subst h
      simp
    · have hb : (r == current) = false := by simpa using h
      rw [hb]
      simp only [Bool.false_eq_true, if_false, ih, List.mem_cons]
      constructor
      · exact Or.inr
      · rintro (hc | hc)
        · exact absurd hc.symm h
        · exact hc

/-- C10: the IPAM Create returns an error before issuing the remote create
call whenever the configured operating regions do not contain the
provider's current region, and issues the create when they do. -/
theorem claim_C10 (regions : List String) (current : String) :
    (current ∉ regions →
      resourceAwsVpcIpamCreateModel regions current =
        CreateOutcome.errorBeforeRemoteCall) ∧
    (current ∈ regions →
      resourceAwsVpcIpamCreateModel regions current = CreateOutcome.issuedCreate) := by
  cases hb : expandAwsIpamOperatingRegionsDefaultRegion regions current
  · refine ⟨fun _ => by simp [resourceAwsVpcIpamCreateModel, hb], fun hmem => ?_⟩
    have := (expandDefaultRegion_eq_mem regions current).mpr hmem
    rw [hb] at this
    cases this
  · refine ⟨fun hnot => ?_, fun _ => by simp [resourceAwsVpcIpamCreateModel, hb]⟩
    exact absurd ((expandDefaultRegion_eq_mem regions current).mp hb) hnot

/-- Witness for C10: missing current region errors before the remote call,
present current region issues the create. -/
theorem claim_C10_witness :
    resourceAwsVpcIpamCreateModel ["us-west-2"] "us-east-1" =
      CreateOutcome.errorBeforeRemoteCall ∧
    resourceAwsVpcIpamCreateModel ["us-east-1", "us-west-2"] "us-east-1" =
      CreateOutcome.issuedCreate :=
  ⟨(claim_C10 ["us-west-2"] "us-east-1").1 (by decide),
   (claim_C10 ["us-east-1", "us-west-2"] "us-east-1").2 (by decide)⟩
